import Mathlib

/-!
Verification development for the `15-shadowmaps-simple` example
(`examples/15-shadowmaps-simple/shadowmaps_simple.cpp`): the chunked mesh
decoder (`Mesh::load`), buffer release (`Mesh::unload`), the transform
composition helpers (`mtxScaleRotateTranslate`, the crop/bias matrix), and
the per-frame two-pass submission trace of `_main_`.

Matrices are the source's row-major `float[16]` arrays, used with the
row-vector convention of `fpumath.h` (`vec4MulMtx`: translation lives in
elements 12..14).  All the matrix facts proved below involve only values
and operations that are exact in IEEE binary floating point (signs, halves,
sums of products against 0/1 rows), so the entries are embedded as exact
rationals.
-/

namespace Shadowmaps

set_option maxRecDepth 10000

/-- Row-major 4x4 matrix, element `mN` embedding `float[16]` slot `N`. -/
@[ext]
structure M4 where
  m0 : ℚ
  m1 : ℚ
  m2 : ℚ
  m3 : ℚ
  m4 : ℚ
  m5 : ℚ
  m6 : ℚ
  m7 : ℚ
  m8 : ℚ
  m9 : ℚ
  m10 : ℚ
  m11 : ℚ
  m12 : ℚ
  m13 : ℚ
  m14 : ℚ
  m15 : ℚ
deriving DecidableEq

/-- Homogeneous 4-vector (row vector). -/
@[ext]
structure Vec4 where
  x : ℚ
  y : ℚ
  z : ℚ
  w : ℚ
deriving DecidableEq

/-- Modelled from the spec: `multiply(a,b)` of the Transform Utility
(`mtxMul` of `fpumath.h`, which is not under `src/`): row-major product,
entry `4*i+j` of the result is row `i` of `a` times column `j` of `b`. -/
def mtxMul (a b : M4) : M4 where
  m0 := a.m0 * b.m0 + a.m1 * b.m4 + a.m2 * b.m8 + a.m3 * b.m12
  m1 := a.m0 * b.m1 + a.m1 * b.m5 + a.m2 * b.m9 + a.m3 * b.m13
  m2 := a.m0 * b.m2 + a.m1 * b.m6 + a.m2 * b.m10 + a.m3 * b.m14
  m3 := a.m0 * b.m3 + a.m1 * b.m7 + a.m2 * b.m11 + a.m3 * b.m15
  m4 := a.m4 * b.m0 + a.m5 * b.m4 + a.m6 * b.m8 + a.m7 * b.m12
  m5 := a.m4 * b.m1 + a.m5 * b.m5 + a.m6 * b.m9 + a.m7 * b.m13
  m6 := a.m4 * b.m2 + a.m5 * b.m6 + a.m6 * b.m10 + a.m7 * b.m14
  m7 := a.m4 * b.m3 + a.m5 * b.m7 + a.m6 * b.m11 + a.m7 * b.m15
  m8 := a.m8 * b.m0 + a.m9 * b.m4 + a.m10 * b.m8 + a.m11 * b.m12
  m9 := a.m8 * b.m1 + a.m9 * b.m5 + a.m10 * b.m9 + a.m11 * b.m13
  m10 := a.m8 * b.m2 + a.m9 * b.m6 + a.m10 * b.m10 + a.m11 * b.m14
  m11 := a.m8 * b.m3 + a.m9 * b.m7 + a.m10 * b.m11 + a.m11 * b.m15
  m12 := a.m12 * b.m0 + a.m13 * b.m4 + a.m14 * b.m8 + a.m15 * b.m12
  m13 := a.m12 * b.m1 + a.m13 * b.m5 + a.m14 * b.m9 + a.m15 * b.m13
  m14 := a.m12 * b.m2 + a.m13 * b.m6 + a.m14 * b.m10 + a.m15 * b.m14
  m15 := a.m12 * b.m3 + a.m13 * b.m7 + a.m14 * b.m11 + a.m15 * b.m15

/-- Modelled from the spec: row-vector transform of the Transform Utility
(`vec4MulMtx` of `fpumath.h`, not under `src/`): `v * M` with the
translation row in elements 12..14. -/
def vec4MulMtx (v : Vec4) (m : M4) : Vec4 where
  x := v.x * m.m0 + v.y * m.m4 + v.z * m.m8 + v.w * m.m12
  y := v.x * m.m1 + v.y * m.m5 + v.z * m.m9 + v.w * m.m13
  z := v.x * m.m2 + v.y * m.m6 + v.z * m.m10 + v.w * m.m14
  w := v.x * m.m3 + v.y * m.m7 + v.z * m.m11 + v.w * m.m15

/-- Modelled from the spec: the Euler-rotation factor used by
`composeScaleRotateTranslate` (`mtxRotateXYZ` of `fpumath.h`, not under
`src/`).  The XYZ Euler rotation homogeneous matrix, parameterized here by
the sines and cosines of the three angles (the source computes them with
`sinf`/`cosf`); row 3 and column 3 are `(0,0,0,1)`. -/
def mtxRotateXYZ (sx cx sy cy sz cz : ℚ) : M4 where
  m0 := cy * cz
  m1 := -cy * sz
  m2 := sy
  m3 := 0
  m4 := cz * sx * sy + cx * sz
  m5 := cx * cz - sx * sy * sz
  m6 := -cy * sx
  m7 := 0
  m8 := -cx * cz * sy + sx * sz
  m9 := cz * sx + cx * sy * sz
  m10 := cx * cy
  m11 := 0
  m12 := 0
  m13 := 0
  m14 := 0
  m15 := 1

/-- The diagonal scale matrix built inside `mtxScaleRotateTranslate`
(`memset` to zero, then slots 0, 5, 10 get the scales and slot 15 gets 1). -/
def mtxScaleDiag (scaleX scaleY scaleZ : ℚ) : M4 where
  m0 := scaleX
  m1 := 0
  m2 := 0
  m3 := 0
  m4 := 0
  m5 := scaleY
  m6 := 0
  m7 := 0
  m8 := 0
  m9 := 0
  m10 := scaleZ
  m11 := 0
  m12 := 0
  m13 := 0
  m14 := 0
  m15 := 1

/-- `mtxScaleRotateTranslate` (shadowmaps_simple.cpp lines 142-169): the
rotation matrix with the translation written into slots 12..14, then
pre-multiplied by the diagonal scale matrix. The rotation is passed by the
sines and cosines of the three Euler angles. -/
def mtxScaleRotateTranslate (scaleX scaleY scaleZ sx cx sy cy sz cz tx ty tz : ℚ) : M4 :=
  let mtxRotateTranslate :=
    { mtxRotateXYZ sx cx sy cy sz cz with m12 := tx, m13 := ty, m14 := tz }
  mtxMul (mtxScaleDiag scaleX scaleY scaleZ) mtxRotateTranslate

/-- The pure translation matrix (identity with the translation in slots
12..14); the `translate` factor named by the spec's
`composeScaleRotateTranslate` contract. -/
def mtxTranslate (tx ty tz : ℚ) : M4 where
  m0 := 1
  m1 := 0
  m2 := 0
  m3 := 0
  m4 := 0
  m5 := 1
  m6 := 0
  m7 := 0
  m8 := 0
  m9 := 0
  m10 := 1
  m11 := 0
  m12 := tx
  m13 := ty
  m14 := tz
  m15 := 1

/-- The crop/bias matrix of the Draw Scene block (lines 607-615):
`s = flipV ? 1 : -1`, and the matrix is `[0.5,0,0,0; 0,s*0.5,0,0;
0,0,0.5,0; 0.5,0.5,0.5,1]` in row-major order. -/
def mtxCrop (flipV : Bool) : M4 :=
  let s : ℚ := if flipV then 1 else -1
  { m0 := 1/2, m1 := 0, m2 := 0, m3 := 0
  , m4 := 0, m5 := s * (1/2), m6 := 0, m7 := 0
  , m8 := 0, m9 := 0, m10 := 1/2, m11 := 0
  , m12 := 1/2, m13 := 1/2, m14 := 1/2, m15 := 1 }

/-!
Chunked mesh decoder (`Mesh::load(const char*)`, lines 250-338).

The stream is the file's bytes (`List Nat`, little-endian multi-byte
values).  `bx::read` either fills a value from the next bytes or, at end
of stream, returns fewer bytes than requested; only the 4-byte tag read is
checked by the loop condition.  Unchecked short reads leave the C
destination's missing bytes unspecified; they are modelled as zero
(`leVal` of the bytes actually taken) — no theorem below depends on a
short unchecked read.  `bgfx::VertexDecl` is an opaque backend type read
as raw bytes; its byte size and its `getStride()` are parameters
(`declSize`, `strideOf`) of the decoder.  `bgfx::create*Buffer` returns a
fresh handle, modelled by a counter; the buffer payload itself lives in
the backend and is dropped from the stream.
-/

/-- `bgfx::invalidHandle` (0xffff). -/
def invalidHandle : Nat := 65535

/-- `bgfx::isValid`: a handle is valid when it is not the sentinel. -/
def isValid (h : Nat) : Bool := h != invalidHandle

/-- Little-endian value of a byte list. -/
def leVal (bs : List Nat) : Nat := bs.foldr (fun b acc => b + 256 * acc) 0

/-- `BGFX_CHUNK_MAGIC_VB` = fourcc `'V' 'B' ' ' 0x0`. -/
def magicVB : Nat := leVal [86, 66, 32, 0]

/-- `BGFX_CHUNK_MAGIC_IB` = fourcc `'I' 'B' ' ' 0x0`. -/
def magicIB : Nat := leVal [73, 66, 32, 0]

/-- `BGFX_CHUNK_MAGIC_PRI` = fourcc `'P' 'R' 'I' 0x0`. -/
def magicPRI : Nat := leVal [80, 82, 73, 0]

/-- `Primitive` (lines 188-198): the name read in the PRI chunk is a local
and is not stored; bounding volumes are raw bytes, never interpreted. -/
structure Prim where
  m_startIndex : Nat
  m_numIndices : Nat
  m_startVertex : Nat
  m_numVertices : Nat
  m_sphere : List Nat
  m_aabb : List Nat
  m_obb : List Nat
deriving DecidableEq

/-- `Group` (lines 202-222).  Buffer handles are backend counter values;
bounding volumes are the raw bytes read from the stream. -/
structure Group where
  m_vbh : Nat
  m_ibh : Nat
  m_sphere : List Nat
  m_aabb : List Nat
  m_obb : List Nat
  m_prims : List Prim
deriving DecidableEq

/-- `Group::reset` (lines 209-214): invalidates both handles and clears the
primitive list; the bounding volumes are deliberately not touched. -/
def Group.reset (g : Group) : Group :=
  { g with m_vbh := invalidHandle, m_ibh := invalidHandle, m_prims := [] }

/-- The `Group()` constructor: `reset()` on a fresh value; the
uninitialized bounding-volume bytes are modelled as empty lists. -/
def Group.init : Group :=
  { m_vbh := invalidHandle, m_ibh := invalidHandle
  , m_sphere := [], m_aabb := [], m_obb := [], m_prims := [] }

/-- `Mesh` (lines 225-388): the shared vertex declaration (raw bytes) and
the sealed group list. -/
structure Mesh where
  m_decl : List Nat
  m_groups : List Group
deriving DecidableEq

/-- The inner `for (ii = 0; ii < num; ++ii)` of the PRI case (lines
306-324): each iteration reads a length-prefixed name (discarded), four
u32 range fields, and the three bounding volumes, and appends the
primitive.  The loop always runs `num` times (reads are unchecked). -/
def readPrims : Nat → List Nat → List Prim → List Prim × List Nat
  | 0, s, ps => (ps, s)
  | n + 1, s, ps =>
    let len := leVal (s.take 2)
    let s1 := (s.drop 2).drop len
    let startIndex := leVal (s1.take 4)
    let s2 := s1.drop 4
    let numIndices := leVal (s2.take 4)
    let s3 := s2.drop 4
    let startVertex := leVal (s3.take 4)
    let s4 := s3.drop 4
    let numVertices := leVal (s4.take 4)
    let s5 := s4.drop 4
    let sph := s5.take 16
    let s6 := s5.drop 16
    let ab := s6.take 24
    let s7 := s6.drop 24
    let ob := s7.take 64
    let s8 := s7.drop 64
    readPrims n s8
      (ps ++ [⟨startIndex, numIndices, startVertex, numVertices, sph, ab, ob⟩])

/-- The `while (4 == bx::read(&reader, chunk))` loop of `Mesh::load`
(lines 262-335).  State: the mesh under construction, the group
accumulator, the backend's next fresh buffer handle, and the diagnostics
emitted so far (the `DBG` in the `default` case logs the unknown tag).
Fuel is the loop counter; the caller passes the stream length, which
bounds the iteration count since every iteration consumes at least the
4 tag bytes. -/
def decodeLoop (declSize : Nat) (strideOf : List Nat → Nat) :
    Nat → List Nat → Mesh → Group → Nat → List Nat →
    Mesh × Group × Nat × List Nat
  | 0, _, mesh, group, h, diags => (mesh, group, h, diags)
  | fuel + 1, s, mesh, group, h, diags =>
    if s.length < 4 then (mesh, group, h, diags)
    else
      let tag := leVal (s.take 4)
      let s1 := s.drop 4
      if tag = magicVB then
        let sph := s1.take 16
        let s2 := s1.drop 16
        let ab := s2.take 24
        let s3 := s2.drop 24
        let ob := s3.take 64
        let s4 := s3.drop 64
        let decl := s4.take declSize
        let s5 := s4.drop declSize
        let stride := strideOf decl
        let numVertices := leVal (s5.take 2)
        let s6 := s5.drop 2
        let s7 := s6.drop (numVertices * stride)
        decodeLoop declSize strideOf fuel s7 { mesh with m_decl := decl }
          { group with m_sphere := sph, m_aabb := ab, m_obb := ob, m_vbh := h }
          (h + 1) diags
      else if tag = magicIB then
        let numIndices := leVal (s1.take 4)
        let s2 := s1.drop 4
        let s3 := s2.drop (numIndices * 2)
        decodeLoop declSize strideOf fuel s3 mesh { group with m_ibh := h }
          (h + 1) diags
      else if tag = magicPRI then
        let len := leVal (s1.take 2)
        let s2 := (s1.drop 2).drop len
        let num := leVal (s2.take 2)
        let pr := readPrims num (s2.drop 2) group.m_prims
        decodeLoop declSize strideOf fuel pr.2
          { mesh with m_groups := mesh.m_groups ++ [{ group with m_prims := pr.1 }] }
          (Group.reset { group with m_prims := pr.1 }) h diags
      else
        decodeLoop declSize strideOf fuel s1 mesh group h (diags ++ [tag])

/-- `Mesh::load(const char*)`: run the chunk loop over the whole stream
starting from a default-constructed mesh and accumulator and return the
mesh.  The local `group` accumulator is discarded when the loop exits. -/
def Mesh.load (declSize : Nat) (strideOf : List Nat → Nat) (s : List Nat) : Mesh :=
  (decodeLoop declSize strideOf s.length s ⟨[], []⟩ Group.init 0 []).1

/-- The diagnostics (`DBG` calls of the `default` case) emitted by a run
of `Mesh::load`. -/
def Mesh.loadDiags (declSize : Nat) (strideOf : List Nat → Nat) (s : List Nat) : List Nat :=
  (decodeLoop declSize strideOf s.length s ⟨[], []⟩ Group.init 0 []).2.2.2

/-- A serialized VB chunk: tag, bounding sphere (16 bytes), aabb (24),
obb (64), vertex declaration (`declSize` bytes), vertex count (u16),
vertex payload (`count * stride` bytes). -/
def vbChunk (sph ab ob decl nv payload : List Nat) : List Nat :=
  [86, 66, 32, 0] ++ sph ++ ab ++ ob ++ decl ++ nv ++ payload

/-- A serialized IB chunk: tag, index count (u32), index payload
(`count * 2` bytes). -/
def ibChunk (ni payload : List Nat) : List Nat :=
  [73, 66, 32, 0] ++ ni ++ payload

/-- A serialized PRI chunk with an empty material name and zero
primitives: tag, material length 0 (u16), primitive count 0 (u16). -/
def priChunk0 : List Nat :=
  [80, 82, 73, 0] ++ [0, 0] ++ [0, 0]

/-- The serialized form of one primitive inside a PRI chunk: name length
(u16 bytes), name bytes, the four u32 range fields, then the bounding
sphere (16), aabb (24) and obb (64) bytes. -/
structure PrimB where
  nlen : List Nat
  name : List Nat
  si : List Nat
  ni : List Nat
  sv : List Nat
  nv : List Nat
  sph : List Nat
  ab : List Nat
  ob : List Nat

/-- Serialization of one primitive, in the exact order the PRI loop
reads it. -/
def primBBytes (p : PrimB) : List Nat :=
  p.nlen ++ (p.name ++ (p.si ++ (p.ni ++ (p.sv ++ (p.nv ++ (p.sph ++ (p.ab ++ p.ob)))))))

/-- Well-formedness of a serialized primitive: correct field widths and a
name-length prefix matching the name bytes. -/
def wfPrimB (p : PrimB) : Prop :=
  p.nlen.length = 2 ∧ p.name.length = leVal p.nlen ∧ p.si.length = 4 ∧ p.ni.length = 4
    ∧ p.sv.length = 4 ∧ p.nv.length = 4 ∧ p.sph.length = 16 ∧ p.ab.length = 24
    ∧ p.ob.length = 64

instance (p : PrimB) : Decidable (wfPrimB p) := by
  unfold wfPrimB
  infer_instance

/-- The `Primitive` the PRI loop stores for a serialized primitive (the
name is read and discarded). -/
def toPrim (p : PrimB) : Prim :=
  ⟨leVal p.si, leVal p.ni, leVal p.sv, leVal p.nv, p.sph, p.ab, p.ob⟩

/-- A serialized PRI chunk: tag, material length (u16), material bytes,
primitive count (u16), then the serialized primitives. -/
def priChunk (mlen material num : List Nat) (ps : List PrimB) : List Nat :=
  [80, 82, 73, 0] ++ (mlen ++ (material ++ (num ++ (ps.map primBBytes).flatten)))

/-- One chunk of the mesh container, as raw serialized fields: a vertex
chunk, an index chunk, a primitive chunk, or an unrecognized tag (which
per the format carries no body). -/
inductive Chunk where
  | vb (sph ab ob decl nv payload : List Nat)
  | ib (ni payload : List Nat)
  | pri (mlen material num : List Nat) (ps : List PrimB)
  | unk (bs : List Nat)

/-- The serialized bytes of a chunk. -/
def chunkBytes : Chunk → List Nat
  | .vb sph ab ob decl nv payload => vbChunk sph ab ob decl nv payload
  | .ib ni payload => ibChunk ni payload
  | .pri mlen material num ps => priChunk mlen material num ps
  | .unk bs => bs

/-- Well-formedness of a chunk with respect to the decoder's declaration
size and stride function: every length prefix matches its payload, so
the loop's reads consume exactly the chunk's bytes. -/
def wfChunk (declSize : Nat) (strideOf : List Nat → Nat) : Chunk → Prop
  | .vb sph ab ob decl nv payload =>
      sph.length = 16 ∧ ab.length = 24 ∧ ob.length = 64 ∧ decl.length = declSize
        ∧ nv.length = 2 ∧ payload.length = leVal nv * strideOf decl
  | .ib ni payload => ni.length = 4 ∧ payload.length = leVal ni * 2
  | .pri mlen material num ps =>
      mlen.length = 2 ∧ material.length = leVal mlen ∧ num.length = 2
        ∧ leVal num = ps.length ∧ ∀ p ∈ ps, wfPrimB p
  | .unk bs =>
      bs.length = 4 ∧ leVal bs ≠ magicVB ∧ leVal bs ≠ magicIB ∧ leVal bs ≠ magicPRI

instance (declSize : Nat) (strideOf : List Nat → Nat) (c : Chunk) :
    Decidable (wfChunk declSize strideOf c) := by
  cases c <;> (unfold wfChunk; infer_instance)

/-- Whether a chunk is a PRI (sealing) chunk. -/
def Chunk.isPri : Chunk → Bool
  | .pri _ _ _ _ => true
  | _ => false

/-- The serialized bytes of a chunk stream. -/
def streamBytes (cs : List Chunk) : List Nat := (cs.map chunkBytes).flatten

/-- The effect of one chunk on the loop state `(mesh, accumulator, next
fresh handle, diagnostics)`, read off the corresponding `switch` case of
`Mesh::load`. -/
def chunkStep (c : Chunk) (st : Mesh × Group × Nat × List Nat) :
    Mesh × Group × Nat × List Nat :=
  match c, st with
  | .vb sph ab ob decl _nv _payload, (mesh, group, h, diags) =>
      ({ mesh with m_decl := decl },
       { group with m_sphere := sph, m_aabb := ab, m_obb := ob, m_vbh := h }, h + 1, diags)
  | .ib _ni _payload, (mesh, group, h, diags) =>
      (mesh, { group with m_ibh := h }, h + 1, diags)
  | .pri _mlen _material _num ps, (mesh, group, h, diags) =>
      ({ mesh with m_groups :=
          mesh.m_groups ++ [{ group with m_prims := group.m_prims ++ ps.map toPrim }] },
       Group.reset { group with m_prims := group.m_prims ++ ps.map toPrim }, h, diags)
  | .unk bs, (mesh, group, h, diags) => (mesh, group, h, diags ++ [leVal bs])

/-- Folding the per-chunk effect over a chunk stream. -/
def runChunks (cs : List Chunk) (st : Mesh × Group × Nat × List Nat) :
    Mesh × Group × Nat × List Nat :=
  cs.foldl (fun s c => chunkStep c s) st

/-!
`Mesh::unload` (lines 340-353): for every group, destroy the vertex
buffer unconditionally and the index buffer only when its handle is
valid, then clear the group list.  The backend destroy calls are modelled
as an event list.
-/

/-- A backend buffer-destruction call. -/
inductive DestroyEv where
  | destroyVertexBuffer (h : Nat)
  | destroyIndexBuffer (h : Nat)
deriving DecidableEq

/-- The destroy calls issued by the `Mesh::unload` group loop. -/
def unloadEvents (gs : List Group) : List DestroyEv :=
  gs.flatMap fun g =>
    DestroyEv.destroyVertexBuffer g.m_vbh ::
      (if isValid g.m_ibh then [DestroyEv.destroyIndexBuffer g.m_ibh] else [])

/-- `Mesh::unload`: the destroy calls it issues and the mesh it leaves
behind (`m_groups.clear()`). -/
def Mesh.unload (m : Mesh) : List DestroyEv × Mesh :=
  (unloadEvents m.m_groups, { m with m_groups := [] })

/-!
Per-frame submission trace of the `_main_` render loop (lines 476-646).

One frame is modelled from the "Define matrices" point on: the light
view/projection, the flip flag, and the four per-object model matrices
(all computed earlier in the frame from elapsed time) are the frame's
inputs, and the frame body is embedded as the ordered list of calls it
hands to the backend.  Backend state setters that carry no ordering or
matrix content relevant here (`setViewRect`, `setViewTransform`,
`setProgram`, buffer/texture/state binds) are not recorded; the trace
keeps the clear submission, per-object transforms, the `u_lightMtx`
uniform uploads, the draw submissions with their view id, and the
end-of-frame call.
-/

/-- One backend call recorded by the frame trace. -/
inductive Cmd where
  | clearCmd (viewMask : Nat) (clearFlags : Nat)
  | transformCmd (m : M4)
  | uniformCmd (m : M4)
  | submitCmd (view : Nat)
  | frameCmd
deriving DecidableEq

/-- `RENDER_SHADOW_PASS_ID`. -/
def RENDER_SHADOW_PASS_ID : Nat := 0

/-- `RENDER_SCENE_PASS_ID`. -/
def RENDER_SCENE_PASS_ID : Nat := 1

/-- `BGFX_CLEAR_COLOR_BIT`. -/
def BGFX_CLEAR_COLOR_BIT : Nat := 1

/-- `BGFX_CLEAR_DEPTH_BIT`. -/
def BGFX_CLEAR_DEPTH_BIT : Nat := 2

/-- `Mesh::submit` (lines 355-383): per group, set the model matrix and
submit to the given view (program/buffer/texture/state binds are backend
state, not recorded). -/
def meshSubmit (view : Nat) (mtx : M4) (groups : List Group) : List Cmd :=
  groups.flatMap fun _ => [Cmd.transformCmd mtx, Cmd.submitCmd view]

/-- The inputs one iteration of the render loop feeds to the two passes:
light view/projection (from `mtxLookAt`/`mtxOrtho` of the orbiting
light), the backend's vertical-flip flag, the four model matrices
(from `mtxScaleRotateTranslate` of elapsed time), and the four meshes'
group lists. -/
structure FrameIn where
  lightView : M4
  lightProj : M4
  flipV : Bool
  mtxFloor : M4
  mtxBunny : M4
  mtxHollowcube : M4
  mtxCube : M4
  hplaneGroups : List Group
  bunnyGroups : List Group
  hollowcubeGroups : List Group
  cubeGroups : List Group

/-- The Craft-shadow-map block (lines 594-600): the four meshes submitted
to the shadow pass with the depth-pack program. -/
def shadowCmds (f : FrameIn) : List Cmd :=
  meshSubmit RENDER_SHADOW_PASS_ID f.mtxFloor f.hplaneGroups
    ++ meshSubmit RENDER_SHADOW_PASS_ID f.mtxBunny f.bunnyGroups
    ++ meshSubmit RENDER_SHADOW_PASS_ID f.mtxHollowcube f.hollowcubeGroups
    ++ meshSubmit RENDER_SHADOW_PASS_ID f.mtxCube f.cubeGroups

/-- The Draw-Scene block (lines 602-640): `mtxShadow` is computed once as
`lightView * (lightProj * mtxCrop)` (two `mtxMul` calls), then for each
object `lightMtx = model * mtxShadow` is uploaded to `u_lightMtx` and the
mesh is submitted to the scene pass. -/
def sceneCmds (f : FrameIn) : List Cmd :=
  let mtxShadow := mtxMul f.lightView (mtxMul f.lightProj (mtxCrop f.flipV))
  Cmd.uniformCmd (mtxMul f.mtxFloor mtxShadow)
    :: (meshSubmit RENDER_SCENE_PASS_ID f.mtxFloor f.hplaneGroups
      ++ (Cmd.uniformCmd (mtxMul f.mtxBunny mtxShadow)
        :: (meshSubmit RENDER_SCENE_PASS_ID f.mtxBunny f.bunnyGroups
          ++ (Cmd.uniformCmd (mtxMul f.mtxHollowcube mtxShadow)
            :: (meshSubmit RENDER_SCENE_PASS_ID f.mtxHollowcube f.hollowcubeGroups
              ++ (Cmd.uniformCmd (mtxMul f.mtxCube mtxShadow)
                :: meshSubmit RENDER_SCENE_PASS_ID f.mtxCube f.cubeGroups))))))

/-- One iteration of the render loop: `setViewClearMask(0x3, COLOR|DEPTH)`
plus `submitMask(0x3)` clear both passes' targets (lines 588-590), then
the shadow pass, then the scene pass, then `bgfx::frame()`. -/
def frameTrace (f : FrameIn) : List Cmd :=
  Cmd.clearCmd 3 (BGFX_CLEAR_COLOR_BIT + BGFX_CLEAR_DEPTH_BIT)
    :: (shadowCmds f ++ (sceneCmds f ++ [Cmd.frameCmd]))

/-- The `while (!entry::processEvents(..))` loop: one frame trace per
iteration, concatenated. -/
def loopTrace : List FrameIn → List Cmd
  | [] => []
  | f :: fs => frameTrace f ++ loopTrace fs

/-- Indices (positions) of the commands satisfying `p` in a trace. -/
def idxsOf (p : Cmd → Bool) : List Cmd → List Nat
  | [] => []
  | c :: cs =>
    if p c then 0 :: (idxsOf p cs).map (· + 1)
    else (idxsOf p cs).map (· + 1)

/-- Every index in `xs` is strictly before every index in `ys`. -/
def pairAll (xs ys : List Nat) : Bool :=
  xs.all fun a => ys.all fun b => decide (a < b)

/-- Recognizes the clear submission that covers both passes (view mask
0x3) with both color and depth bits. -/
def isClearBoth : Cmd → Bool
  | Cmd.clearCmd vm fl => vm == 3 && fl == BGFX_CLEAR_COLOR_BIT + BGFX_CLEAR_DEPTH_BIT
  | _ => false

/-- Recognizes a draw submission to the given view. -/
def isSubmitTo (view : Nat) : Cmd → Bool
  | Cmd.submitCmd v => v == view
  | _ => false

/-- Recognizes any draw submission. -/
def isSubmitAny : Cmd → Bool
  | Cmd.submitCmd _ => true
  | _ => false

/-- The per-frame ordering invariant: the both-passes clear happens
exactly once, at the head of the frame; every clear index precedes every
submission index; and every shadow-pass submission index precedes every
scene-pass submission index. -/
def frameOrdered (t : List Cmd) : Bool :=
  decide (idxsOf isClearBoth t = [0])
    && pairAll (idxsOf isClearBoth t) (idxsOf isSubmitAny t)
    && pairAll (idxsOf (isSubmitTo RENDER_SHADOW_PASS_ID) t)
         (idxsOf (isSubmitTo RENDER_SCENE_PASS_ID) t)

/-- The `u_lightMtx` matrices uploaded during a trace, in order. -/
def uniformsOf (t : List Cmd) : List M4 :=
  t.filterMap fun c =>
    match c with
    | Cmd.uniformCmd m => some m
    | _ => none

/-! Theorems.  Helper lemmas come first, then one theorem per claim (plus
its witness or counterexample where required). -/

/-- The row-major product is associative (needed to relate the code's
`model * (lightView * (lightProj * crop))` to the specification's
left-to-right product). -/
theorem mtxMul_assoc (a b c : M4) :
    mtxMul (mtxMul a b) c = mtxMul a (mtxMul b c) := by
  ext <;> simp [mtxMul] <;> ring

/-- C6: for all scale, Euler-rotation (given by sines/cosines), and
translation inputs, `mtxScaleRotateTranslate` returns the product
`scale * (rotate * translate)`: the rotation matrix with the translation
written into it, pre-multiplied by the diagonal scale matrix. -/
theorem c6_compose_order (scaleX scaleY scaleZ sx cx sy cy sz cz tx ty tz : ℚ) :
    mtxScaleRotateTranslate scaleX scaleY scaleZ sx cx sy cy sz cz tx ty tz =
      mtxMul (mtxScaleDiag scaleX scaleY scaleZ)
        (mtxMul (mtxRotateXYZ sx cx sy cy sz cz) (mtxTranslate tx ty tz)) := by
  ext <;>
    simp [mtxScaleRotateTranslate, mtxMul, mtxRotateXYZ, mtxScaleDiag, mtxTranslate]

/-- C10: the translation slots 12..14 of the composed matrix equal the
given translation exactly, unaffected by the scale factors. -/
theorem c10_translation_exact (scaleX scaleY scaleZ sx cx sy cy sz cz tx ty tz : ℚ) :
    (mtxScaleRotateTranslate scaleX scaleY scaleZ sx cx sy cy sz cz tx ty tz).m12 = tx
  ∧ (mtxScaleRotateTranslate scaleX scaleY scaleZ sx cx sy cy sz cz tx ty tz).m13 = ty
  ∧ (mtxScaleRotateTranslate scaleX scaleY scaleZ sx cx sy cy sz cz tx ty tz).m14 = tz := by
  refine ⟨?_, ?_, ?_⟩ <;>
    simp [mtxScaleRotateTranslate, mtxMul, mtxScaleDiag, mtxRotateXYZ]

/-- C3 counterexample: with `verticalFlip = false` the source's crop/bias
matrix does not map the clip-space corner `(-1,-1,-1)` to texture-space
`(0,0,0)` (it maps it to `(0,1,0)`): the flag polarity in the claim is
reversed with respect to `s = flipV ? 1.0f : -1.0f`. -/
theorem c3_counterexample :
    vec4MulMtx ⟨-1, -1, -1, 1⟩ (mtxCrop false) ≠ Vec4.mk 0 0 0 1 := by
  simp [vec4MulMtx, mtxCrop, Vec4.ext_iff]

/-- C3 (amended): `mtxCrop true` maps `(-1,-1,-1)` to `(0,0,0)` and
`(1,1,1)` to `(1,1,1)`; `mtxCrop false` inverts the vertical coordinate,
mapping `(-1,1,-1)` to `(0,0,0)`; and the flip flag changes only the sign
of the vertical scale slot `m5`. -/
theorem c3_crop_flip :
    vec4MulMtx ⟨-1, -1, -1, 1⟩ (mtxCrop true) = Vec4.mk 0 0 0 1
  ∧ vec4MulMtx ⟨1, 1, 1, 1⟩ (mtxCrop true) = Vec4.mk 1 1 1 1
  ∧ vec4MulMtx ⟨-1, 1, -1, 1⟩ (mtxCrop false) = Vec4.mk 0 0 0 1
  ∧ mtxCrop false = { mtxCrop true with m5 := -(mtxCrop true).m5 } := by
  refine ⟨?_, ?_, ?_, ?_⟩ <;> ext <;> norm_num [vec4MulMtx, mtxCrop]

/-- `Mesh::submit` uploads no `u_lightMtx` uniform (the uniform is set by
the caller, once per object, before the submit). -/
theorem uniformsOf_meshSubmit (v : Nat) (m : M4) (g : List Group) :
    uniformsOf (meshSubmit v m g) = [] := by
  induction g with
  | nil => rfl
  | cons a as ih =>
    simp [meshSubmit, uniformsOf, List.filterMap_eq_nil_iff] at ih ⊢
    exact ih

/-- `uniformsOf` distributes over trace concatenation. -/
theorem uniformsOf_append (a b : List Cmd) :
    uniformsOf (a ++ b) = uniformsOf a ++ uniformsOf b := by
  simp [uniformsOf, List.filterMap_append]

/-- A clear contributes no uniform upload. -/
theorem uniformsOf_clear_cons (vm fl : Nat) (t : List Cmd) :
    uniformsOf (Cmd.clearCmd vm fl :: t) = uniformsOf t := rfl

/-- A uniform upload is recorded in order. -/
theorem uniformsOf_uniform_cons (m : M4) (t : List Cmd) :
    uniformsOf (Cmd.uniformCmd m :: t) = m :: uniformsOf t := rfl

/-- The end-of-frame call contributes no uniform upload. -/
theorem uniformsOf_frame : uniformsOf [Cmd.frameCmd] = [] := rfl

/-- C4: in every frame, the four `u_lightMtx` uploads of the shaded pass
are exactly the four model matrices each multiplied by the one shared
matrix `lightView * (lightProj * mtxCrop)`, and (by associativity of the
exact product) that per-object transform equals the left-to-right product
`model * lightView * lightProj * cropBias` of the claim. -/
theorem c4_scene_light_transforms (f : FrameIn) :
    uniformsOf (frameTrace f) =
        [f.mtxFloor, f.mtxBunny, f.mtxHollowcube, f.mtxCube].map
          (fun m => mtxMul m (mtxMul f.lightView (mtxMul f.lightProj (mtxCrop f.flipV))))
  ∧ ∀ m : M4,
      mtxMul m (mtxMul f.lightView (mtxMul f.lightProj (mtxCrop f.flipV))) =
        mtxMul (mtxMul (mtxMul m f.lightView) f.lightProj) (mtxCrop f.flipV) := by
  constructor
  · simp only [frameTrace, shadowCmds, sceneCmds, List.append_assoc]
    simp [uniformsOf_clear_cons, uniformsOf_uniform_cons, uniformsOf_append,
      uniformsOf_meshSubmit, uniformsOf_frame]
  · intro m
    rw [mtxMul_assoc, mtxMul_assoc]

/-- Unfolding `idxsOf` at a command satisfying the predicate. -/
theorem idxsOf_cons_pos (p : Cmd → Bool) (c : Cmd) (t : List Cmd) (h : p c = true) :
    idxsOf p (c :: t) = 0 :: (idxsOf p t).map (· + 1) := by
  simp [idxsOf, h]

/-- Unfolding `idxsOf` at a command not satisfying the predicate. -/
theorem idxsOf_cons_neg (p : Cmd → Bool) (c : Cmd) (t : List Cmd) (h : p c = false) :
    idxsOf p (c :: t) = (idxsOf p t).map (· + 1) := by
  simp [idxsOf, h]

/-- `idxsOf` over a concatenation: indices of the left part, then the
right part's indices shifted by the left length. -/
theorem idxsOf_append (p : Cmd → Bool) (a b : List Cmd) :
    idxsOf p (a ++ b) = idxsOf p a ++ (idxsOf p b).map (· + a.length) := by
  induction a with
  | nil => simp [idxsOf]
  | cons c cs ih =>
    by_cases h : p c <;>
      simp [idxsOf, h, ih, List.map_map, Function.comp, Nat.add_assoc, Nat.add_comm 1]

/-- A trace with no command satisfying `p` contributes no indices. -/
theorem idxsOf_eq_nil_of (p : Cmd → Bool) (l : List Cmd)
    (h : ∀ c ∈ l, p c = false) : idxsOf p l = [] := by
  induction l with
  | nil => rfl
  | cons c cs ih =>
    rw [idxsOf_cons_neg p c cs (h c (List.mem_cons_self c cs)),
      ih fun d hd => h d (List.mem_cons_of_mem c hd)]
    rfl

/-- Recorded indices are positions inside the trace. -/
theorem mem_idxsOf_lt (p : Cmd → Bool) (l : List Cmd) (i : Nat)
    (h : i ∈ idxsOf p l) : i < l.length := by
  induction l generalizing i with
  | nil => simp [idxsOf] at h
  | cons c cs ih =>
    rw [List.length_cons]
    by_cases hc : p c
    · rw [idxsOf_cons_pos p c cs hc] at h
      rcases List.mem_cons.mp h with h0 | hmap
      · omega
      · rcases List.mem_map.mp hmap with ⟨j, hj, rfl⟩
        have hlt := ih j hj
        omega
    · rw [idxsOf_cons_neg p c cs (by simp [hc])] at h
      rcases List.mem_map.mp h with ⟨j, hj, rfl⟩
      have hlt := ih j hj
      omega

/-- Every command `Mesh::submit` emits is a transform set or a draw
submission to its view. -/
theorem mem_meshSubmit (v : Nat) (m : M4) (g : List Group) (c : Cmd)
    (h : c ∈ meshSubmit v m g) :
    c = Cmd.transformCmd m ∨ c = Cmd.submitCmd v := by
  simp only [meshSubmit, List.mem_flatMap] at h
  rcases h with ⟨a, _, hc⟩
  simpa using hc

/-- Shadow-pass commands are never the clear and never a scene-pass
submission. -/
theorem shadowCmds_pred (f : FrameIn) (c : Cmd) (h : c ∈ shadowCmds f) :
    isClearBoth c = false ∧ isSubmitTo RENDER_SCENE_PASS_ID c = false := by
  simp only [shadowCmds, List.mem_append] at h
  rcases h with ((h | h) | h) | h <;>
    rcases mem_meshSubmit _ _ _ _ h with rfl | rfl <;>
      exact ⟨rfl, rfl⟩

/-- Scene-pass commands are never the clear and never a shadow-pass
submission. -/
theorem sceneCmds_pred (f : FrameIn) (c : Cmd) (h : c ∈ sceneCmds f) :
    isClearBoth c = false ∧ isSubmitTo RENDER_SHADOW_PASS_ID c = false := by
  simp only [sceneCmds, List.mem_cons, List.mem_append] at h
  rcases h with rfl | h
  · exact ⟨rfl, rfl⟩
  rcases h with h | h
  · rcases mem_meshSubmit _ _ _ _ h with rfl | rfl <;> exact ⟨rfl, rfl⟩
  rcases h with rfl | h
  · exact ⟨rfl, rfl⟩
  rcases h with h | h
  · rcases mem_meshSubmit _ _ _ _ h with rfl | rfl <;> exact ⟨rfl, rfl⟩
  rcases h with rfl | h
  · exact ⟨rfl, rfl⟩
  rcases h with h | h
  · rcases mem_meshSubmit _ _ _ _ h with rfl | rfl <;> exact ⟨rfl, rfl⟩
  rcases h with rfl | h
  · exact ⟨rfl, rfl⟩
  rcases mem_meshSubmit _ _ _ _ h with rfl | rfl <;> exact ⟨rfl, rfl⟩

/-- Nothing after the head of a frame trace is the both-passes clear. -/
theorem frameRest_no_clear (f : FrameIn) (c : Cmd)
    (h : c ∈ shadowCmds f ++ (sceneCmds f ++ [Cmd.frameCmd])) :
    isClearBoth c = false := by
  rcases List.mem_append.mp h with h1 | h2
  · exact (shadowCmds_pred f c h1).1
  rcases List.mem_append.mp h2 with h3 | h4
  · exact (sceneCmds_pred f c h3).1
  · rcases List.mem_singleton.mp h4 with rfl
    rfl

/-- The per-frame ordering invariant holds for every frame input. -/
theorem frameOrdered_holds (f : FrameIn) : frameOrdered (frameTrace f) = true := by
  have hclear : idxsOf isClearBoth (frameTrace f) = [0] := by
    rw [frameTrace,
      idxsOf_cons_pos isClearBoth _ _
        (show isClearBoth
            (Cmd.clearCmd 3 (BGFX_CLEAR_COLOR_BIT + BGFX_CLEAR_DEPTH_BIT)) = true from rfl),
      idxsOf_eq_nil_of isClearBoth _ (frameRest_no_clear f)]
    rfl
  have hsub : idxsOf isSubmitAny (frameTrace f) =
      (idxsOf isSubmitAny (shadowCmds f ++ (sceneCmds f ++ [Cmd.frameCmd]))).map (· + 1) :=
    idxsOf_cons_neg isSubmitAny _ _ rfl
  have hscene0 : idxsOf (isSubmitTo RENDER_SHADOW_PASS_ID)
      (sceneCmds f ++ [Cmd.frameCmd]) = [] := by
    refine idxsOf_eq_nil_of _ _ fun c hc => ?_
    rcases List.mem_append.mp hc with h | h
    · exact (sceneCmds_pred f c h).2
    · rcases List.mem_singleton.mp h with rfl
      rfl
  have hshadow1 : idxsOf (isSubmitTo RENDER_SCENE_PASS_ID) (shadowCmds f) = [] :=
    idxsOf_eq_nil_of _ _ fun c hc => (shadowCmds_pred f c hc).2
  have h0 : idxsOf (isSubmitTo RENDER_SHADOW_PASS_ID) (frameTrace f) =
      (idxsOf (isSubmitTo RENDER_SHADOW_PASS_ID) (shadowCmds f)).map (· + 1) := by
    rw [frameTrace, idxsOf_cons_neg _ _ _ rfl, idxsOf_append, hscene0]
    simp
  have h1 : idxsOf (isSubmitTo RENDER_SCENE_PASS_ID) (frameTrace f) =
      ((idxsOf (isSubmitTo RENDER_SCENE_PASS_ID)
          (sceneCmds f ++ [Cmd.frameCmd])).map (· + (shadowCmds f).length)).map (· + 1) := by
    rw [frameTrace, idxsOf_cons_neg _ _ _ rfl, idxsOf_append, hshadow1]
    simp
  simp only [frameOrdered, Bool.and_eq_true, decide_eq_true_eq]
  refine ⟨⟨hclear, ?_⟩, ?_⟩
  · rw [hclear, pairAll, List.all_eq_true]
    intro a ha
    rcases List.mem_singleton.mp ha with rfl
    rw [List.all_eq_true]
    intro b hb
    rw [hsub] at hb
    rcases List.mem_map.mp hb with ⟨j, _, rfl⟩
    simp
  · rw [pairAll, List.all_eq_true]
    intro a ha
    rw [List.all_eq_true]
    intro b hb
    rw [h0] at ha
    rw [h1] at hb
    rcases List.mem_map.mp ha with ⟨a0, ha0, rfl⟩
    rcases List.mem_map.mp hb with ⟨b1, hb1, rfl⟩
    rcases List.mem_map.mp hb1 with ⟨b0, hb0, rfl⟩
    have halt := mem_idxsOf_lt _ _ a0 ha0
    simp only [decide_eq_true_eq]
    omega

/-- C8: in every iteration of the render loop, the trace is the
concatenation of per-frame traces, and each frame's trace clears both
passes' targets exactly once at its head (before any submission), with
every shadow-pass submission strictly before every scene-pass
submission. -/
theorem c8_pass_ordering (frames : List FrameIn) :
    loopTrace frames = (frames.map frameTrace).flatten
  ∧ frames.all (fun f => frameOrdered (frameTrace f)) = true := by
  constructor
  · induction frames with
    | nil => rfl
    | cons f fs ih => simp [loopTrace, ih]
  · rw [List.all_eq_true]
    intro f _
    exact frameOrdered_holds f

/-- Unfolding one group of the `Mesh::unload` loop. -/
theorem unloadEvents_cons (g : Group) (gs : List Group) :
    unloadEvents (g :: gs) =
      DestroyEv.destroyVertexBuffer g.m_vbh ::
        ((if isValid g.m_ibh then [DestroyEv.destroyIndexBuffer g.m_ibh] else [])
          ++ unloadEvents gs) := by
  simp [unloadEvents]

/-- Each group contributes exactly one `destroyVertexBuffer` of its vertex
handle, unconditionally. -/
theorem unloadEvents_count_vb (gs : List Group) (h : Nat) :
    (unloadEvents gs).count (DestroyEv.destroyVertexBuffer h) =
      (gs.map Group.m_vbh).count h := by
  induction gs with
  | nil => rfl
  | cons g gs ih =>
    rw [unloadEvents_cons, List.map_cons]
    by_cases hv : isValid g.m_ibh <;>
      by_cases he : g.m_vbh = h <;>
        simp [List.count_cons, List.count_append, hv, he, ih]

/-- Each group contributes exactly one `destroyIndexBuffer` of its index
handle when that handle is valid, and none otherwise. -/
theorem unloadEvents_count_ib (gs : List Group) (h : Nat) :
    (unloadEvents gs).count (DestroyEv.destroyIndexBuffer h) =
      if isValid h then (gs.map Group.m_ibh).count h else 0 := by
  induction gs with
  | nil => simp [unloadEvents]
  | cons g gs ih =>
    rw [unloadEvents_cons, List.map_cons]
    by_cases hvh : isValid h
    · by_cases hv : isValid g.m_ibh
      · by_cases he : g.m_ibh = h <;>
          simp [List.count_cons, List.count_append, hv, hvh, he, ih]
      · have hinv : g.m_ibh = invalidHandle := by
          simpa [isValid] using hv
        have hne : g.m_ibh ≠ h := by
          intro hcontra
          rw [← hcontra] at hvh
          simp [isValid, hinv] at hvh
        simp [List.count_cons, List.count_append, hv, hvh, hne, ih]
    · by_cases hv : isValid g.m_ibh
      · have hne : g.m_ibh ≠ h := by
          intro hcontra
          rw [hcontra] at hv
          exact hvh hv
        simp [List.count_cons, List.count_append, hv, hvh, hne, ih]
      · simp [List.count_cons, List.count_append, hv, hvh, ih]

/-- C9: `Mesh::unload` destroys each group's vertex buffer handle exactly
once (unconditionally) and its index buffer handle exactly once only when
that handle is valid, then empties the group list; a second unload on the
resulting mesh performs no destroy calls at all. -/
theorem c9_unload_idempotent (m : Mesh) (h : Nat) :
    (Mesh.unload m).1.count (DestroyEv.destroyVertexBuffer h) =
        (m.m_groups.map Group.m_vbh).count h
  ∧ (Mesh.unload m).1.count (DestroyEv.destroyIndexBuffer h) =
      (if isValid h then (m.m_groups.map Group.m_ibh).count h else 0)
  ∧ (Mesh.unload m).2.m_groups = []
  ∧ (Mesh.unload (Mesh.unload m).2).1 = [] :=
  ⟨unloadEvents_count_vb _ _, unloadEvents_count_ib _ _, rfl, rfl⟩

/-- Taking the length of the first part of a concatenation yields it. -/
theorem takeApp (a b : List Nat) (n : Nat) (h : a.length = n) : (a ++ b).take n = a :=
  List.take_left' h

/-- Dropping the length of the first part of a concatenation yields the rest. -/
theorem dropApp (a b : List Nat) (n : Nat) (h : a.length = n) : (a ++ b).drop n = b :=
  List.drop_left' h

/-- The chunk loop stops as soon as fewer than 4 bytes remain (the
`4 == bx::read(&reader, chunk)` condition fails), returning its state
unchanged — in particular the group accumulator is never appended. -/
theorem decodeLoop_short (declSize : Nat) (strideOf : List Nat → Nat) (fuel : Nat)
    (s : List Nat) (mesh : Mesh) (group : Group) (h : Nat) (diags : List Nat)
    (hs : s.length < 4) :
    decodeLoop declSize strideOf fuel s mesh group h diags = (mesh, group, h, diags) := by
  cases fuel with
  | zero => rfl
  | succ n => rw [decodeLoop, if_pos hs]

/-- One complete VB chunk at the head of the stream: the loop reads the
bounding volumes and the vertex declaration, creates the vertex buffer
(handle `h`), overwrites the accumulator's bounding data and vertex
handle in place, and continues after the payload.  The accumulator's
index handle and primitive list are untouched, and nothing is appended
to the mesh. -/
theorem decodeLoop_vb_step (declSize : Nat) (strideOf : List Nat → Nat) (fuel : Nat)
    (sph ab ob decl nv payload rest : List Nat) (mesh : Mesh) (group : Group)
    (h : Nat) (diags : List Nat)
    (hsph : sph.length = 16) (hab : ab.length = 24) (hob : ob.length = 64)
    (hdecl : decl.length = declSize) (hnv : nv.length = 2)
    (hpay : payload.length = leVal nv * strideOf decl) :
    decodeLoop declSize strideOf (fuel + 1) (vbChunk sph ab ob decl nv payload ++ rest)
        mesh group h diags =
      decodeLoop declSize strideOf fuel rest { mesh with m_decl := decl }
        { group with m_sphere := sph, m_aabb := ab, m_obb := ob, m_vbh := h }
        (h + 1) diags := by
  have hng :
      ¬ (([86, 66, 32, 0] ++ (sph ++ (ab ++ (ob ++ (decl ++ (nv ++ (payload ++ rest))))))
          : List Nat).length < 4) := by
    simp
  simp only [vbChunk, List.append_assoc]
  rw [decodeLoop]
  simp only [if_neg hng]
  rw [takeApp [86, 66, 32, 0] _ 4 rfl, dropApp [86, 66, 32, 0] _ 4 rfl]
  rw [if_pos (show leVal [86, 66, 32, 0] = magicVB from rfl)]
  rw [takeApp sph _ 16 hsph, dropApp sph _ 16 hsph]
  rw [takeApp ab _ 24 hab, dropApp ab _ 24 hab]
  rw [takeApp ob _ 64 hob, dropApp ob _ 64 hob]
  rw [takeApp decl _ declSize hdecl, dropApp decl _ declSize hdecl]
  rw [takeApp nv _ 2 hnv, dropApp nv _ 2 hnv]
  rw [dropApp payload rest _ hpay]

/-- One complete IB chunk at the head of the stream: the loop creates the
index buffer (handle `h`), stores it in the accumulator, and continues —
for any accumulator state, with no check that a vertex chunk came
first. -/
theorem decodeLoop_ib_step (declSize : Nat) (strideOf : List Nat → Nat) (fuel : Nat)
    (ni payload rest : List Nat) (mesh : Mesh) (group : Group) (h : Nat) (diags : List Nat)
    (hni : ni.length = 4) (hpay : payload.length = leVal ni * 2) :
    decodeLoop declSize strideOf (fuel + 1) (ibChunk ni payload ++ rest) mesh group h diags =
      decodeLoop declSize strideOf fuel rest mesh { group with m_ibh := h } (h + 1) diags := by
  have hng : ¬ (([73, 66, 32, 0] ++ (ni ++ (payload ++ rest)) : List Nat).length < 4) := by
    simp
  simp only [ibChunk, List.append_assoc]
  rw [decodeLoop]
  simp only [if_neg hng]
  rw [takeApp [73, 66, 32, 0] _ 4 rfl, dropApp [73, 66, 32, 0] _ 4 rfl]
  rw [if_neg (show ¬ leVal [73, 66, 32, 0] = magicVB by decide)]
  rw [if_pos (show leVal [73, 66, 32, 0] = magicIB from rfl)]
  rw [takeApp ni _ 4 hni, dropApp ni _ 4 hni]
  rw [dropApp payload rest _ hpay]

/-- An unrecognized 4-byte tag at the head of the stream: the loop logs
the tag and resumes scanning right after it, with mesh and accumulator
unchanged. -/
theorem decodeLoop_unknown_step (declSize : Nat) (strideOf : List Nat → Nat) (fuel : Nat)
    (bs rest : List Nat) (mesh : Mesh) (group : Group) (h : Nat) (diags : List Nat)
    (hlen : bs.length = 4)
    (hvb : leVal bs ≠ magicVB) (hib : leVal bs ≠ magicIB) (hpri : leVal bs ≠ magicPRI) :
    decodeLoop declSize strideOf (fuel + 1) (bs ++ rest) mesh group h diags =
      decodeLoop declSize strideOf fuel rest mesh group h (diags ++ [leVal bs]) := by
  have hng : ¬ ((bs ++ rest).length < 4) := by simp [hlen]
  rw [decodeLoop]
  simp only [if_neg hng]
  rw [takeApp bs rest 4 hlen, dropApp bs rest 4 hlen]
  simp only [if_neg hvb, if_neg hib, if_neg hpri]

/-- One well-formed serialized primitive at the head of the stream: the
PRI loop reads it (discarding the name) and appends it to the
accumulator's primitive list. -/
theorem readPrims_cons (n : Nat) (p : PrimB) (rest : List Nat) (acc : List Prim)
    (hw : wfPrimB p) :
    readPrims (n + 1) (primBBytes p ++ rest) acc = readPrims n rest (acc ++ [toPrim p]) := by
  obtain ⟨h1, h2, h3, h4, h5, h6, h7, h8, h9⟩ := hw
  simp only [primBBytes, List.append_assoc]
  simp only [readPrims]
  rw [takeApp p.nlen _ 2 h1, dropApp p.nlen _ 2 h1]
  rw [dropApp p.name _ (leVal p.nlen) h2]
  rw [takeApp p.si _ 4 h3, dropApp p.si _ 4 h3]
  rw [takeApp p.ni _ 4 h4, dropApp p.ni _ 4 h4]
  rw [takeApp p.sv _ 4 h5, dropApp p.sv _ 4 h5]
  rw [takeApp p.nv _ 4 h6, dropApp p.nv _ 4 h6]
  rw [takeApp p.sph _ 16 h7, dropApp p.sph _ 16 h7]
  rw [takeApp p.ab _ 24 h8, dropApp p.ab _ 24 h8]
  rw [takeApp p.ob _ 64 h9, dropApp p.ob _ 64 h9]
  rfl

/-- The PRI per-primitive loop over a list of well-formed serialized
primitives consumes exactly their bytes and appends their `Primitive`
values in order. -/
theorem readPrims_all (ps : List PrimB) (rest : List Nat) (acc : List Prim)
    (hw : ∀ p ∈ ps, wfPrimB p) :
    readPrims ps.length ((ps.map primBBytes).flatten ++ rest) acc
      = (acc ++ ps.map toPrim, rest) := by
  induction ps generalizing acc with
  | nil => simp [readPrims]
  | cons p ps ih =>
    rw [List.length_cons, List.map_cons, List.flatten_cons, List.append_assoc]
    rw [readPrims_cons ps.length p _ acc (hw p (List.mem_cons_self p ps))]
    rw [ih _ fun q hq => hw q (List.mem_cons_of_mem p hq)]
    simp

/-- One complete PRI chunk at the head of the stream: the loop reads the
material name and the primitives, appends the sealed group (accumulator
plus the chunk's primitives) to the mesh, and resets the accumulator. -/
theorem decodeLoop_pri_step (declSize : Nat) (strideOf : List Nat → Nat) (fuel : Nat)
    (mlen material num : List Nat) (ps : List PrimB) (rest : List Nat)
    (mesh : Mesh) (group : Group) (h : Nat) (diags : List Nat)
    (hmlen : mlen.length = 2) (hmat : material.length = leVal mlen)
    (hnum : num.length = 2) (hps : leVal num = ps.length)
    (hw : ∀ p ∈ ps, wfPrimB p) :
    decodeLoop declSize strideOf (fuel + 1) (priChunk mlen material num ps ++ rest)
        mesh group h diags =
      decodeLoop declSize strideOf fuel rest
        { mesh with m_groups :=
            mesh.m_groups ++ [{ group with m_prims := group.m_prims ++ ps.map toPrim }] }
        (Group.reset { group with m_prims := group.m_prims ++ ps.map toPrim }) h diags := by
  have hng :
      ¬ (([80, 82, 73, 0] ++ (mlen ++ (material ++ (num ++ ((ps.map primBBytes).flatten
          ++ rest)))) : List Nat).length < 4) := by
    simp
  simp only [priChunk, List.append_assoc]
  rw [decodeLoop]
  simp only [if_neg hng]
  rw [takeApp [80, 82, 73, 0] _ 4 rfl, dropApp [80, 82, 73, 0] _ 4 rfl]
  rw [if_neg (show ¬ leVal [80, 82, 73, 0] = magicVB by decide)]
  rw [if_neg (show ¬ leVal [80, 82, 73, 0] = magicIB by decide)]
  rw [if_pos (show leVal [80, 82, 73, 0] = magicPRI from rfl)]
  rw [takeApp mlen _ 2 hmlen, dropApp mlen _ 2 hmlen]
  rw [dropApp material _ (leVal mlen) hmat]
  rw [takeApp num _ 2 hnum, dropApp num _ 2 hnum]
  rw [hps]
  rw [readPrims_all ps rest group.m_prims hw]

/-- Every well-formed chunk serializes to at least its 4 tag bytes, so a
chunk stream is at least as long as its chunk count. -/
theorem le_length_streamBytes (declSize : Nat) (strideOf : List Nat → Nat)
    (cs : List Chunk) (hw : ∀ c ∈ cs, wfChunk declSize strideOf c) :
    cs.length ≤ (streamBytes cs).length := by
  induction cs with
  | nil => simp [streamBytes]
  | cons c cs ih =>
    have h4 : 4 ≤ (chunkBytes c).length := by
      have hwc := hw c (List.mem_cons_self c cs)
      cases c with
      | vb sph ab ob decl nv payload => simp [chunkBytes, vbChunk]
      | ib ni payload => simp [chunkBytes, ibChunk]
      | pri mlen material num ps => simp [chunkBytes, priChunk]
      | unk bs => simp [chunkBytes, hwc.1]
    have hrest := ih fun x hx => hw x (List.mem_cons_of_mem c hx)
    simp only [streamBytes, List.map_cons, List.flatten_cons, List.length_append,
      List.length_cons] at hrest ⊢
    omega

/-- The chunk loop over any well-formed chunk stream (with fewer than 4
leftover bytes at the end, where the next tag read fails) computes the
fold of the per-chunk effects — in particular, the loop exit returns the
state as is and never appends the accumulator. -/
theorem decodeLoop_chunks (declSize : Nat) (strideOf : List Nat → Nat) (cs : List Chunk)
    (extra : List Nat) (fuel : Nat) (mesh : Mesh) (group : Group) (h : Nat)
    (diags : List Nat) (hextra : extra.length < 4)
    (hw : ∀ c ∈ cs, wfChunk declSize strideOf c) (hfuel : cs.length ≤ fuel) :
    decodeLoop declSize strideOf fuel (streamBytes cs ++ extra) mesh group h diags
      = runChunks cs (mesh, group, h, diags) := by
  revert hw hfuel
  induction cs generalizing fuel mesh group h diags with
  | nil =>
    intro hw hfuel
    simp only [streamBytes, List.map_nil, List.flatten_nil, List.nil_append]
    rw [decodeLoop_short _ _ _ _ _ _ _ _ hextra]
    rfl
  | cons c cs ih =>
    intro hw hfuel
    obtain ⟨f, rfl⟩ : ∃ f, fuel = f + 1 := ⟨fuel - 1, by simp at hfuel; omega⟩
    have hwc := hw c (List.mem_cons_self c cs)
    have hwcs : ∀ x ∈ cs, wfChunk declSize strideOf x :=
      fun x hx => hw x (List.mem_cons_of_mem c hx)
    have hf : cs.length ≤ f := by simp at hfuel; omega
    have hrw : streamBytes (c :: cs) ++ extra = chunkBytes c ++ (streamBytes cs ++ extra) := by
      simp [streamBytes, List.append_assoc]
    rw [hrw]
    cases c with
    | vb sph ab ob decl nv payload =>
      obtain ⟨h1, h2, h3, h4, h5, h6⟩ := hwc
      rw [show chunkBytes (Chunk.vb sph ab ob decl nv payload)
          = vbChunk sph ab ob decl nv payload from rfl]
      rw [decodeLoop_vb_step declSize strideOf f sph ab ob decl nv payload _ mesh group h
        diags h1 h2 h3 h4 h5 h6]
      rw [ih f _ _ _ _ hwcs hf]
      rfl
    | ib ni payload =>
      obtain ⟨h1, h2⟩ := hwc
      rw [show chunkBytes (Chunk.ib ni payload) = ibChunk ni payload from rfl]
      rw [decodeLoop_ib_step declSize strideOf f ni payload _ mesh group h diags h1 h2]
      rw [ih f _ _ _ _ hwcs hf]
      rfl
    | pri mlen material num ps =>
      obtain ⟨h1, h2, h3, h4, h5⟩ := hwc
      rw [show chunkBytes (Chunk.pri mlen material num ps)
          = priChunk mlen material num ps from rfl]
      rw [decodeLoop_pri_step declSize strideOf f mlen material num ps _ mesh group h diags
        h1 h2 h3 h4 h5]
      rw [ih f _ _ _ _ hwcs hf]
      rfl
    | unk bs =>
      obtain ⟨h1, h2, h3, h4⟩ := hwc
      rw [show chunkBytes (Chunk.unk bs) = bs from rfl]
      rw [decodeLoop_unknown_step declSize strideOf f bs _ mesh group h diags h1 h2 h3 h4]
      rw [ih f _ _ _ _ hwcs hf]
      rfl

/-- A run of non-PRI chunks never touches the mesh's group list: VB and
IB chunks only rewrite the accumulator and unknown tags only log. -/
theorem runChunks_no_pri (ts : List Chunk) (st : Mesh × Group × Nat × List Nat)
    (hnp : ∀ c ∈ ts, c.isPri = false) :
    (runChunks ts st).1.m_groups = st.1.m_groups := by
  induction ts generalizing st with
  | nil => rfl
  | cons c ts ih =>
    rw [show runChunks (c :: ts) st = runChunks ts (chunkStep c st) from rfl]
    rw [ih _ fun d hd => hnp d (List.mem_cons_of_mem c hd)]
    obtain ⟨mesh, group, h, diags⟩ := st
    cases c with
    | vb sph ab ob decl nv payload => rfl
    | ib ni payload => rfl
    | pri mlen material num ps =>
      exact absurd (hnp _ (List.mem_cons_self _ _)) (by simp [Chunk.isPri])
    | unk bs => rfl

/-- C1 counterexample: a stream that is exactly one complete VB chunk (a
vertex chunk was decoded, so the accumulator is non-empty when the stream
ends) decodes to a mesh whose group list is empty — the trailing group is
not included. -/
theorem c1_counterexample :
    (Mesh.load 1 leVal (vbChunk (List.replicate 16 0) (List.replicate 24 0)
      (List.replicate 64 0) [2] [1, 0] [9, 9])).m_groups = [] := by
  decide

/-- C1 (amended): for every input stream of well-formed chunks that ends
mid-accumulation — an arbitrary prefix `cs` (which may seal any number of
groups via PRI chunks) followed by an arbitrary non-empty-or-empty run
`ts` of non-PRI chunks (trailing VB, VB then IB, repeated VBs, unknown
tags in the tail) and up to 3 leftover bytes — `Mesh::load` discards the
trailing unsealed accumulation: the resulting group list is exactly the
group list of the sealed prefix alone, so only PRI-sealed groups ever
appear in it. -/
theorem c1_trailing_group_dropped (declSize : Nat) (strideOf : List Nat → Nat)
    (cs ts : List Chunk) (extra : List Nat)
    (hwcs : ∀ c ∈ cs, wfChunk declSize strideOf c)
    (hwts : ∀ c ∈ ts, wfChunk declSize strideOf c)
    (hnp : ∀ c ∈ ts, c.isPri = false)
    (hextra : extra.length < 4) :
    (Mesh.load declSize strideOf (streamBytes (cs ++ ts) ++ extra)).m_groups
      = (Mesh.load declSize strideOf (streamBytes cs)).m_groups := by
  have hwall : ∀ c ∈ cs ++ ts, wfChunk declSize strideOf c := by
    intro c hc
    rcases List.mem_append.mp hc with h | h
    exacts [hwcs c h, hwts c h]
  have hfuel1 : (cs ++ ts).length ≤ (streamBytes (cs ++ ts) ++ extra).length := by
    have h := le_length_streamBytes declSize strideOf (cs ++ ts) hwall
    have h2 : (streamBytes (cs ++ ts)).length ≤ (streamBytes (cs ++ ts) ++ extra).length := by
      simp
    omega
  have hfuel2 : cs.length ≤ (streamBytes cs ++ []).length := by
    have h := le_length_streamBytes declSize strideOf cs hwcs
    simpa using h
  have hL : Mesh.load declSize strideOf (streamBytes (cs ++ ts) ++ extra)
      = (runChunks (cs ++ ts) (⟨[], []⟩, Group.init, 0, [])).1 := by
    rw [Mesh.load, decodeLoop_chunks declSize strideOf (cs ++ ts) extra _ _ _ _ _
      hextra hwall hfuel1]
  have hR : Mesh.load declSize strideOf (streamBytes cs)
      = (runChunks cs (⟨[], []⟩, Group.init, 0, [])).1 := by
    rw [Mesh.load,
      show streamBytes cs = streamBytes cs ++ [] from (List.append_nil _).symm,
      decodeLoop_chunks declSize strideOf cs [] _ _ _ _ _ (by simp) hwcs hfuel2]
  rw [hL, hR,
    show runChunks (cs ++ ts) (⟨[], []⟩, Group.init, 0, [])
      = runChunks ts (runChunks cs (⟨[], []⟩, Group.init, 0, []))
      from List.foldl_append _ _ _ _,
    runChunks_no_pri ts _ hnp]

/-- C1 witness: a sealed VB+PRI prefix followed by a trailing VB and IB
accumulation and 2 leftover bytes; the group list equals that of the
prefix alone. -/
theorem c1_witness :
    (Chunk.ib [2, 0, 0, 0] [1, 2, 3, 4]).isPri = false
  ∧ (Mesh.load 1 leVal (streamBytes
        ([Chunk.vb (List.replicate 16 0) (List.replicate 24 0) (List.replicate 64 0)
            [1] [1, 0] [5],
          Chunk.pri [0, 0] [] [0, 0] []]
        ++ [Chunk.vb (List.replicate 16 3) (List.replicate 24 3) (List.replicate 64 3)
              [2] [1, 0] [8, 8],
            Chunk.ib [2, 0, 0, 0] [1, 2, 3, 4]]) ++ [9, 9])).m_groups
      = (Mesh.load 1 leVal (streamBytes
          [Chunk.vb (List.replicate 16 0) (List.replicate 24 0) (List.replicate 64 0)
              [1] [1, 0] [5],
            Chunk.pri [0, 0] [] [0, 0] []])).m_groups :=
  ⟨rfl, c1_trailing_group_dropped 1 leVal _ _ _ (by decide) (by decide) (by decide)
    (by decide)⟩

/-- C2 counterexample: a stream whose first recognized chunk is an IB
chunk (no prior VB chunk), followed by a sealing PRI chunk, decodes
without any failure to a mesh with one group holding an index buffer and
no vertex buffer — rather than failing, a mesh is produced. -/
theorem c2_counterexample :
    (Mesh.load 0 (fun _ => 0) (ibChunk [1, 0, 0, 0] [5, 6] ++ priChunk0)).m_groups =
      [{ m_vbh := invalidHandle, m_ibh := 0, m_sphere := [], m_aabb := [], m_obb := []
       , m_prims := [] }] := by
  decide

/-- C2 (amended): an IB chunk arriving with no prior VB chunk is consumed
like any index chunk — the index buffer is created and recorded in the
accumulator while the vertex handle stays the invalid sentinel, and
decoding continues; `Mesh::load` has no failure path at all. -/
theorem c2_ib_before_vb (declSize : Nat) (strideOf : List Nat → Nat) (fuel : Nat)
    (ni payload rest : List Nat) (mesh : Mesh) (h : Nat) (diags : List Nat)
    (hni : ni.length = 4) (hpay : payload.length = leVal ni * 2) :
    decodeLoop declSize strideOf (fuel + 1) (ibChunk ni payload ++ rest)
        mesh Group.init h diags =
      decodeLoop declSize strideOf fuel rest mesh
        { Group.init with m_ibh := h } (h + 1) diags
  ∧ ({ Group.init with m_ibh := h } : Group).m_vbh = invalidHandle :=
  ⟨decodeLoop_ib_step declSize strideOf fuel ni payload rest mesh Group.init h diags
      hni hpay, rfl⟩

/-- C2 witness: the amended statement evaluated on a concrete IB-first
stream (2 indices). -/
theorem c2_witness :
    ([2, 0, 0, 0] : List Nat).length = 4
  ∧ (decodeLoop 0 (fun _ => 0) 1 (ibChunk [2, 0, 0, 0] [1, 2, 3, 4] ++ [])
        ⟨[], []⟩ Group.init 5 [] =
      decodeLoop 0 (fun _ => 0) 0 [] ⟨[], []⟩ { Group.init with m_ibh := 5 } 6 []
    ∧ ({ Group.init with m_ibh := 5 } : Group).m_vbh = invalidHandle) :=
  ⟨rfl, c2_ib_before_vb 0 (fun _ => 0) 0 [2, 0, 0, 0] [1, 2, 3, 4] [] ⟨[], []⟩ 5 []
    (by decide) (by decide)⟩

/-- C5 counterexample: a stream of two VB chunks followed by one sealing
PRI chunk yields exactly one group (holding the second vertex buffer,
handle 1) — not the two groups the append-before-reset claim implies. -/
theorem c5_counterexample :
    ((Mesh.load 1 leVal (vbChunk (List.replicate 16 1) (List.replicate 24 1)
        (List.replicate 64 1) [0] [0, 0] []
      ++ (vbChunk (List.replicate 16 2) (List.replicate 24 2) (List.replicate 64 2)
          [0] [0, 0] [] ++ priChunk0))).m_groups).length = 1 := by
  decide

/-- C5 (amended): a vertex chunk arriving in any accumulator state (in
particular after a previous VB or IB chunk) overwrites the accumulator's
bounding volumes and vertex buffer handle in place; it appends nothing to
the mesh's group list and does not reset the accumulator — the index
handle and primitive list survive.  It is not an error (the loop simply
continues). -/
theorem c5_vb_overwrite (declSize : Nat) (strideOf : List Nat → Nat) (fuel : Nat)
    (sph ab ob decl nv payload rest : List Nat) (mesh : Mesh) (group : Group)
    (h : Nat) (diags : List Nat)
    (hsph : sph.length = 16) (hab : ab.length = 24) (hob : ob.length = 64)
    (hdecl : decl.length = declSize) (hnv : nv.length = 2)
    (hpay : payload.length = leVal nv * strideOf decl) :
    decodeLoop declSize strideOf (fuel + 1) (vbChunk sph ab ob decl nv payload ++ rest)
        mesh group h diags =
      decodeLoop declSize strideOf fuel rest { mesh with m_decl := decl }
        { m_vbh := h, m_ibh := group.m_ibh, m_sphere := sph, m_aabb := ab, m_obb := ob
        , m_prims := group.m_prims } (h + 1) diags
  ∧ ({ mesh with m_decl := decl } : Mesh).m_groups = mesh.m_groups :=
  ⟨decodeLoop_vb_step declSize strideOf fuel sph ab ob decl nv payload rest mesh group
      h diags hsph hab hob hdecl hnv hpay, rfl⟩

/-- C5 witness: the amended statement evaluated with a concrete
accumulator that already holds an index buffer and a primitive. -/
theorem c5_witness :
    (List.replicate 24 (4 : Nat)).length = 24
  ∧ (decodeLoop 2 leVal 1 (vbChunk (List.replicate 16 4) (List.replicate 24 4)
          (List.replicate 64 4) [1, 1] [0, 0] [] ++ [])
        ⟨[5], [⟨0, 1, [], [], [], []⟩]⟩ ⟨7, 8, [1], [2], [3], [⟨0, 0, 0, 0, [], [], []⟩]⟩
        9 [] =
      decodeLoop 2 leVal 0 [] ⟨[1, 1], [⟨0, 1, [], [], [], []⟩]⟩
        { m_vbh := 9, m_ibh := 8, m_sphere := List.replicate 16 4
        , m_aabb := List.replicate 24 4, m_obb := List.replicate 64 4
        , m_prims := [⟨0, 0, 0, 0, [], [], []⟩] } 10 []
    ∧ ({ (⟨[5], [⟨0, 1, [], [], [], []⟩]⟩ : Mesh) with m_decl := [1, 1] } : Mesh).m_groups
        = (⟨[5], [⟨0, 1, [], [], [], []⟩]⟩ : Mesh).m_groups) :=
  ⟨by decide,
    c5_vb_overwrite 2 leVal 0 (List.replicate 16 4) (List.replicate 24 4)
      (List.replicate 64 4) [1, 1] [0, 0] [] []
      ⟨[5], [⟨0, 1, [], [], [], []⟩]⟩ ⟨7, 8, [1], [2], [3], [⟨0, 0, 0, 0, [], [], []⟩]⟩
      9 [] (by decide) (by decide) (by decide) (by decide) (by decide) (by decide)⟩

/-- C7: a chunk whose 4-byte tag is none of VB, IB, PRI makes the loop
log the tag (one diagnostic) and continue scanning from the byte
immediately after the tag — no payload bytes are consumed, and the mesh
(group list included) and the group accumulator are unchanged. -/
theorem c7_unknown_tag (declSize : Nat) (strideOf : List Nat → Nat) (fuel : Nat)
    (bs rest : List Nat) (mesh : Mesh) (group : Group) (h : Nat) (diags : List Nat)
    (hlen : bs.length = 4)
    (hvb : leVal bs ≠ magicVB) (hib : leVal bs ≠ magicIB) (hpri : leVal bs ≠ magicPRI) :
    decodeLoop declSize strideOf (fuel + 1) (bs ++ rest) mesh group h diags =
      decodeLoop declSize strideOf fuel rest mesh group h (diags ++ [leVal bs]) :=
  decodeLoop_unknown_step declSize strideOf fuel bs rest mesh group h diags hlen hvb hib hpri

/-- C7 witness: an unknown tag `[9, 9, 9, 9]` before an empty rest. -/
theorem c7_witness :
    ([9, 9, 9, 9] : List Nat).length = 4
  ∧ decodeLoop 0 (fun _ => 0) 1 ([9, 9, 9, 9] ++ []) ⟨[], []⟩ Group.init 0 [] =
      decodeLoop 0 (fun _ => 0) 0 [] ⟨[], []⟩ Group.init 0 ([] ++ [leVal [9, 9, 9, 9]]) :=
  ⟨rfl, c7_unknown_tag 0 (fun _ => 0) 0 [9, 9, 9, 9] [] ⟨[], []⟩ Group.init 0 []
    (by decide) (by decide) (by decide) (by decide)⟩

end Shadowmaps
